import Mathlib

/-!
Verification of the kctools tape-decoding pipeline (kcconvert.py / kcverify.py /
kcdecode.py) against its design specification.

The Python sources are shallowly embedded below: machine integers are `Nat`
(Python integers are unbounded, and all values stay nonnegative on the paths
modelled here), the ECC dictionary is a partial map `Nat → Option (Nat × Nat)`
updated pointwise exactly as the dict is, fallible code (`sys.exit`) returns
`Except`, and Python floats are modelled by `ℚ` (every constant involved in the
classification thresholds is exactly representable in binary floating point, so
the comparisons agree).
-/

namespace KCTools

/-! ## Definitions: shallow embedding of the Python sources -/

def accBits (bs : List ℕ) : ℕ := bs.foldl (fun a b => a * 2 + b) 0

def low_syndrome : List ℕ :=
  [0x00, 0x0d, 0x1a, 0x17, 0x15, 0x18, 0x0f, 0x02,
   0x0b, 0x06, 0x11, 0x1c, 0x1e, 0x13, 0x04, 0x09,
   0x16, 0x1b, 0x0c, 0x01, 0x03, 0x0e, 0x19, 0x14,
   0x1d, 0x10, 0x07, 0x0a, 0x08, 0x05, 0x12, 0x1f]

def high_syndrome : List ℕ :=
  [0x00, 0x13, 0x07, 0x14, 0x0e, 0x1d, 0x09, 0x1a,
   0x1c, 0x0f, 0x1b, 0x08, 0x12, 0x01, 0x15, 0x06,
   0x19, 0x0a, 0x1e, 0x0d, 0x17, 0x04, 0x10, 0x03,
   0x05, 0x16, 0x02, 0x11, 0x0b, 0x18, 0x0c, 0x1f]

/-- The 5 check bits of `CreateECCTable`:
`high_syndrome[(i>>5)&0x1f] ^ low_syndrome[i&0x1f]`. -/
def syndrome (i : ℕ) : ℕ :=
  high_syndrome.getD ((i >>> 5) &&& 0x1f) 0 ^^^ low_syndrome.getD (i &&& 0x1f) 0

/-- The valid codeword for a 10-bit data value:
`code = i | (high_syndrome[(i>>5)&0x1f] ^ low_syndrome[i&0x1f]) << 10`. -/
def encode (i : ℕ) : ℕ := i ||| (syndrome i) <<< 10

/-- The Python dict `self.ecc`, as a partial map from codes to
`(status, fixed_code)` pairs. -/
def EccMap : Type := ℕ → Option (ℕ × ℕ)

/-- A single dict assignment `self.ecc[k] = v` (later writes win). -/
def dinsert (m : EccMap) (k : ℕ) (v : ℕ × ℕ) : EccMap :=
  fun x => if x = k then some v else m x

def emptyEcc : EccMap := fun _ => none

/-- One iteration of the first loop of `CreateECCTable`: `self.ecc[code] = (1,code)`. -/
def validWrite (m : EccMap) (i : ℕ) : EccMap := dinsert m (encode i) (1, encode i)

/-- First loop of `CreateECCTable`: `for i in range(0,1024): ... self.ecc[code] = (1,code)`. -/
def eccPass1 : EccMap := (List.range 1024).foldl validWrite emptyEcc

/-- The list `correct_keys = list(self.ecc.keys())`: the 1024 valid codes in insertion
order (the codes are pairwise distinct, so dict key order is the order of the
first loop). -/
def correct_keys : List ℕ := (List.range 1024).map encode

/-- Inner body of the second loop:
`for bad_bit in range(0,15): self.ecc[k ^ (1<<bad_bit)] = (2,k)`. -/
def flipWrites (m : EccMap) (k : ℕ) : EccMap :=
  (List.range 15).foldl (fun m' b => dinsert m' (k ^^^ (1 <<< b)) (2, k)) m

/-- Second loop: `for k in correct_keys: for bad_bit in range(0,15): ...`. -/
def eccPass2 : EccMap := correct_keys.foldl flipWrites eccPass1

/-- One iteration of the third loop:
`if self.ecc.get(i) == None: self.ecc[i] = (0,0)`. -/
def fillStep (m : EccMap) (i : ℕ) : EccMap :=
  match m i with
  | none => dinsert m i (0, 0)
  | some _ => m

/-- Third loop: `for i in range(0,32768): if self.ecc.get(i) == None: self.ecc[i] = (0,0)`. -/
def eccTable : EccMap := (List.range 32768).foldl fillStep eccPass2

def buildColumns (row_array : List ℕ) : List ℕ :=
  (List.range 32).map
    (fun j => row_array.foldl (fun acc row => acc * 2 + ((row >>> (31 - j)) &&& 1)) 0)

/-- The branching of the second loop on the looked-up tuple
`t = self.ecc[column_array[i]]`: status 2 replaces the column with `t[1]`,
status 0 aborts (`print("Error!!"); sys.exit()`), status 1 keeps the column. -/
def fixLookup (c : ℕ) : Option (ℕ × ℕ) → Except String ℕ
  | none => .error "KeyError"
  | some t => if t.1 = 2 then .ok t.2 else if t.1 = 0 then .error "Error!!" else .ok c

def fixColumn (c : ℕ) : Except String ℕ := fixLookup c (eccTable c)

/-- Error propagation of the column loop: the first failing column aborts the
whole chunk. -/
def consColumn (v : Except String ℕ) (rest : Except String (List ℕ)) :
    Except String (List ℕ) :=
  match v with
  | .error e => .error e
  | .ok w =>
    match rest with
    | .error e => .error e
    | .ok ws => .ok (w :: ws)

def fixColumns : List ℕ → Except String (List ℕ)
  | [] => .ok []
  | c :: rest => consColumn (fixColumn c) (fixColumns rest)

def DecodeChunk (row_array : List ℕ) : Except String (List ℕ) :=
  fixColumns (buildColumns row_array)

/-- The synthetic chunk construction used by the round-trip properties: row `i`
carries bit `14 - i` of codeword `j` at bit `31 - j`, accumulated
most-significant-column-first. -/
def mkRow (cs : List ℕ) (i : ℕ) : ℕ :=
  cs.foldl (fun r c => r * 2 + ((c >>> (14 - i)) &&& 1)) 0

/-- A 15-row chunk whose column 0 transposes to the unrecoverable code 3
(rows 13 and 14 carry bit 31). -/
def chunkBadCol0 : List ℕ :=
  [0, 0, 0, 0, 0, 0, 0, 0, 0, 0, 0, 0, 0, 0x80000000, 0x80000000]

/-- A 15-row chunk whose column 1 transposes to the unrecoverable code 3 while
column 0 is the valid codeword 0. -/
def chunkBadCol1 : List ℕ :=
  [0, 0, 0, 0, 0, 0, 0, 0, 0, 0, 0, 0, 0, 0x40000000, 0x40000000]

def absolute_percent_threshold : ℚ := 75

/-- The thresholds computed by SetTimeThresholds. -/
def short_bottom (nominal_samples_per_bit : ℚ) : ℚ :=
  (2 - absolute_percent_threshold / 100) * nominal_samples_per_bit / 4

def short_top (nominal_samples_per_bit : ℚ) : ℚ :=
  (2 + absolute_percent_threshold / 100) * nominal_samples_per_bit / 4

def long_bottom (nominal_samples_per_bit : ℚ) : ℚ :=
  (4 - absolute_percent_threshold / 100) * nominal_samples_per_bit / 4

def long_top (nominal_samples_per_bit : ℚ) : ℚ :=
  (4 + absolute_percent_threshold / 100) * nominal_samples_per_bit / 4

/-- The interval-classification chain of `PerTransition.Process`:
`'w'` = WideAnomaly, `'L'` = Long, `'m'` = MidAnomaly, `'S'` = Short,
`'s'` = NarrowAnomaly. -/
def classifyInterval (spb delta : ℚ) : Char :=
  if delta > long_top spb then 'w'
  else if delta ≥ long_bottom spb then 'L'
  else if delta > short_top spb then 'm'
  else if delta ≥ short_bottom spb then 'S'
  else 's'

/-- The activation test of `PerSample.__init__`:
`if self.samples_per_bit * args.dcwindow > 1.0: self.dcwindow_is_active = True`. -/
def dcwindowIsActive (samples_per_bit dcwindow : ℚ) : Bool :=
  samples_per_bit * dcwindow > 1

/-- The DC-offset branch of `PerSample.Process`: append the incoming sample,
pop the oldest, replace the sample by the window's middle entry minus the
window mean, and shift the sample index back by `dcwindow_i_shift`. -/
def dcProcessStep (dcwindow_samples : List ℚ) (dcwindow_mid_index : ℕ)
    (dcwindow_i_shift : ℤ) (i : ℤ) (sample : ℚ) : List ℚ × ℤ × ℚ :=
  let ws := (dcwindow_samples ++ [sample]).drop 1
  (ws, i - dcwindow_i_shift,
    ws.getD dcwindow_mid_index 0 - ws.sum / (ws.length : ℚ))

/-- The head of `PerSample.Process`: the DC path runs exactly when
`dcwindow_is_active`; otherwise the sample and index pass through untouched. -/
def perSampleDC (active : Bool) (dcwindow_samples : List ℚ)
    (dcwindow_mid_index : ℕ) (dcwindow_i_shift : ℤ) (i : ℤ) (sample : ℚ) :
    List ℚ × ℤ × ℚ :=
  if active then
    dcProcessStep dcwindow_samples dcwindow_mid_index dcwindow_i_shift i sample
  else (dcwindow_samples, i, sample)

inductive OutEvent where
  | zeroOut (n : ℤ)
  | fileOut (record : ℕ)
  deriving DecidableEq

structure PState where
  c_count : ℕ
  state : ℕ
  zero_count : ℕ
  counting_zeros : Bool
  sync_pattern : List Char
  char_count : ℕ
  row_count : ℕ
  chunk_count : ℕ
  row : ℕ
  row_array : List ℕ
  out : List OutEvent
  fpout : Bool
  record : ℕ
  recbytes : List ℕ
  deriving DecidableEq

inductive PExit where
  | frameErr (pos : ℕ) (s : PState)
  | eccErr (msg : String) (s : PState)
  deriving DecidableEq

/-- The 128-character synchronization preamble compared against the rolling
window (kcconvert.py line 99). -/
def syncPreamble : List Char :=
  ("00000000000000000000000001111110000000000000000000000000101111010000000000000000000000001101101100000000000000000000000011100111").toList

/-- The window update `sync_pattern = sync_pattern + c` followed by
`if len(sync_pattern) > 32*4: sync_pattern = sync_pattern[1:]`. -/
def trimWindow (sp : List Char) : List Char :=
  if sp.length > 32 * 4 then sp.drop 1 else sp

/-- The 64 bytes written for one decoded chunk:
`val = column_array[j]&0x3ff; fpout.write(bytearray([val>>8,val&0xff]))`. -/
def chunkBytes (column_array : List ℕ) : List ℕ :=
  column_array.foldl
    (fun acc cw => acc ++ [(cw &&& 0x3ff) >>> 8, (cw &&& 0x3ff) &&& 0xff]) []

/-- What `Process` does with the result of `DecodeChunk` when `row_count == 15`:
on success, open the record file if none is open (emitting the `file` manifest
line and bumping `record`), write the 64 bytes, and reset the row buffer; an
unrecoverable chunk exits. -/
def afterChunk (s : PState) (res : Except String (List ℕ)) : Except PExit PState :=
  match res with
  | .error msg => .error (.eccErr msg s)
  | .ok column_array =>
    let s1 := if s.fpout = false then
        { s with fpout := true, record := s.record + 1,
                 out := s.out ++ [.fileOut s.record] }
      else s
    .ok { s1 with recbytes := s1.recbytes ++ chunkBytes column_array,
                  row_array := [], chunk_count := s1.chunk_count + 1,
                  row_count := 0, c_count := s1.c_count + 1 }

/-- The tail of the `state == 1` branch (`if row_count == 15: ...`) followed by
the loop-end `c_count` increment. -/
def afterRow (s : PState) : Except PExit PState :=
  if s.row_count = 15 then afterChunk s (DecodeChunk s.row_array)
  else .ok { s with c_count := s.c_count + 1 }

/-- One loop iteration of `PerLine.Process` (one character of the data line). -/
def step (s : PState) (c : Char) : Except PExit PState :=
  if s.state = 0 then
    let zero_count := if c = '0' then
        (if s.counting_zeros then s.zero_count + 1 else s.zero_count)
      else s.zero_count
    let counting_zeros := if c = '0' then s.counting_zeros else false
    let sp := trimWindow (s.sync_pattern ++ [c])
    if sp = syncPreamble then
      .ok { s with zero_count := zero_count, counting_zeros := counting_zeros,
                   sync_pattern := sp,
                   out := s.out ++ [.zeroOut ((zero_count : ℤ) - 25)],
                   state := 1, row := 0, char_count := 0, row_count := 0,
                   chunk_count := 0, row_array := [], c_count := s.c_count + 1 }
    else
      .ok { s with zero_count := zero_count, counting_zeros := counting_zeros,
                   sync_pattern := sp, c_count := s.c_count + 1 }
  else if s.state = 1 then
    let row := s.row * 2 + (if c = '1' then 1 else 0)
    let char_count := s.char_count + 1
    if char_count = 37 then
      if row &&& 0x1f00000000 = 0x1d00000000 then
        afterRow { s with row := 0, char_count := 0,
                          row_count := s.row_count + 1,
                          row_array := s.row_array ++ [row &&& 0xffffffff] }
      else .error (.frameErr s.c_count
        { s with row := row, char_count := char_count })
    else afterRow { s with row := row, char_count := char_count }
  else .ok { s with c_count := s.c_count + 1 }

def runLine : PState → List Char → Except PExit PState
  | s, [] => .ok s
  | s, c :: rest =>
    match step s c with
    | .error e => .error e
    | .ok s' => runLine s' rest

/-- The code after the character loop:
`if state==0 and zero_count > 0: write('zero '+str(zero_count))`, then close
the record file if one is open. -/
def finishLine (s : PState) : PState :=
  let s1 := if s.state = 0 ∧ 0 < s.zero_count then
      { s with out := s.out ++ [.zeroOut (s.zero_count : ℤ)] }
    else s
  { s1 with fpout := false }

def initPState : PState :=
  { c_count := 0, state := 0, zero_count := 0, counting_zeros := true,
    sync_pattern := [], char_count := 0, row_count := 0, chunk_count := 0,
    row := 0, row_array := [], out := [], fpout := false, record := 1,
    recbytes := [] }

/-- One call of `PerLine.Process` on one data line. -/
def procLine (line : List Char) : Except PExit PState :=
  match runLine initPState line with
  | .error e => .error e
  | .ok s => .ok (finishLine s)

/-- The bit value a character contributes to a row:
`row = row * 2; if c == '1': row = row + 1`. -/
def charBit (c : Char) : ℕ := if c = '1' then 1 else 0

/-- The 37 bit characters of a 37-bit row value, most significant first. -/
def rowChars (v : ℕ) : List Char :=
  ((List.range 36).map (fun t => if (v >>> (36 - t)) &&& 1 = 1 then '1' else '0')) ++
    [if v &&& 1 = 1 then '1' else '0']

/-- The framer state right after the synchronization preamble has been matched
at the start of a data line. -/
def syncState : PState :=
  { c_count := 128, state := 1, zero_count := 25, counting_zeros := false,
    sync_pattern := syncPreamble, char_count := 0, row_count := 0,
    chunk_count := 0, row := 0, row_array := [],
    out := [.zeroOut 0], fpout := false, record := 1, recbytes := [] }

/-! ## Theorems -/

theorem shiftRight_xor (a b k : ℕ) : (a ^^^ b) >>> k = (a >>> k) ^^^ (b >>> k) := by
  apply Nat.eq_of_testBit_eq
  intro i
  simp [Nat.testBit_shiftRight, Nat.testBit_xor]

theorem shiftRight_or (a b k : ℕ) : (a ||| b) >>> k = (a >>> k) ||| (b >>> k) := by
  apply Nat.eq_of_testBit_eq
  intro i
  simp [Nat.testBit_shiftRight, Nat.testBit_or]

theorem shiftLeft_xor (a b k : ℕ) : (a <<< k) ^^^ (b <<< k) = (a ^^^ b) <<< k := by
  apply Nat.eq_of_testBit_eq
  intro i
  simp only [Nat.testBit_shiftLeft, Nat.testBit_xor]
  cases h : decide (k ≤ i) <;> simp [h]

theorem or_eq_xor_of_lt {a : ℕ} (b k : ℕ) (h : a < 2 ^ k) :
    a ||| (b <<< k) = a ^^^ (b <<< k) := by
  apply Nat.eq_of_testBit_eq
  intro i
  rcases Nat.lt_or_ge i k with hik | hik
  · have hb : (b <<< k).testBit i = false := by
      simp [Nat.testBit_shiftLeft, Nat.not_le.mpr hik]
    simp [hb]
  · have ha : a.testBit i = false :=
      Nat.testBit_lt_two_pow
        (Nat.lt_of_lt_of_le h (Nat.pow_le_pow_right (by norm_num) hik))
    simp [ha]

theorem and_shiftLeft (a b k : ℕ) : a &&& (b <<< k) = ((a >>> k) &&& b) <<< k := by
  apply Nat.eq_of_testBit_eq
  intro i
  simp only [Nat.testBit_and, Nat.testBit_shiftLeft, Nat.testBit_shiftRight]
  rcases Nat.lt_or_ge i k with hik | hik
  · simp [Nat.not_le.mpr hik]
  · simp [hik, Nat.add_sub_cancel' hik]

theorem xor_left_eq {x y z : ℕ} (h : x = y ^^^ z) : x ^^^ y = z := by
  subst h
  rw [Nat.xor_comm y z, Nat.xor_assoc, Nat.xor_self, Nat.xor_zero]

theorem eq_of_xor_eq_zero {x y : ℕ} (h : x ^^^ y = 0) : x = y := by
  have : x ^^^ y ^^^ y = 0 ^^^ y := by rw [h]
  rwa [Nat.xor_assoc, Nat.xor_self, Nat.xor_zero, Nat.zero_xor] at this

theorem shiftLeft_right_inj {a b k : ℕ} (h : a <<< k = b <<< k) : a = b := by
  rw [Nat.shiftLeft_eq, Nat.shiftLeft_eq] at h
  exact Nat.eq_of_mul_eq_mul_right (Nat.two_pow_pos k) h

theorem two_pow_shiftRight_ten {b : ℕ} (hb : 10 ≤ b) : (1 <<< b) >>> 10 = 1 <<< (b - 10) := by
  have : 1 <<< b = (1 <<< (b - 10)) <<< 10 := by
    rw [← Nat.shiftLeft_add, Nat.sub_add_cancel hb]
  rw [this, Nat.shiftLeft_shiftRight]

theorem two_pow_and_low {b : ℕ} (hb : 10 ≤ b) : (1 <<< b) &&& 1023 = 0 := by
  have h1023 : (1023 : ℕ) = 2 ^ 10 - 1 := by norm_num
  rw [h1023, Nat.and_pow_two_sub_one_eq_mod, Nat.one_shiftLeft]
  have : 2 ^ b = 2 ^ 10 * 2 ^ (b - 10) := by
    rw [← Nat.pow_add, Nat.add_sub_cancel' hb]
  rw [this]
  exact Nat.mul_mod_right _ _

theorem two_pow_and_low_of_lt {b : ℕ} (hb : b < 10) : (1 <<< b) &&& 1023 = 1 <<< b := by
  have h1023 : (1023 : ℕ) = 2 ^ 10 - 1 := by norm_num
  rw [h1023]
  apply Nat.and_pow_two_sub_one_of_lt_two_pow
  rw [Nat.one_shiftLeft]
  exact Nat.pow_lt_pow_right (by norm_num) hb

theorem two_pow_shiftRight_ten_zero {b : ℕ} (hb : b < 10) : (1 <<< b) >>> 10 = 0 := by
  rw [Nat.one_shiftLeft, Nat.shiftRight_eq_div_pow]
  exact Nat.div_eq_of_lt (Nat.pow_lt_pow_right (by norm_num) hb)

theorem accBits_foldl_init (bs : List ℕ) :
    ∀ a : ℕ, bs.foldl (fun x y => x * 2 + y) a = a * 2 ^ bs.length + accBits bs := by
  induction bs with
  | nil => intro a; simp [accBits]
  | cons b bs ih =>
    intro a
    show bs.foldl (fun x y => x * 2 + y) (a * 2 + b) = _
    rw [ih (a * 2 + b)]
    have hb : accBits (b :: bs) = b * 2 ^ bs.length + accBits bs := by
      show bs.foldl (fun x y => x * 2 + y) (0 * 2 + b) = _
      rw [ih (0 * 2 + b)]
      ring_nf
    rw [hb]
    simp [List.length_cons, Nat.pow_succ]
    ring

theorem accBits_cons (b : ℕ) (bs : List ℕ) :
    accBits (b :: bs) = b * 2 ^ bs.length + accBits bs := by
  show bs.foldl (fun x y => x * 2 + y) (0 * 2 + b) = _
  rw [accBits_foldl_init bs (0 * 2 + b)]
  ring_nf

theorem accBits_lt (bs : List ℕ) (hb : ∀ b ∈ bs, b ≤ 1) : accBits bs < 2 ^ bs.length := by
  induction bs with
  | nil => simp [accBits]
  | cons b rest ih =>
    rw [accBits_cons]
    have h1 : b ≤ 1 := hb b (by simp)
    have h2 : accBits rest < 2 ^ rest.length := ih (fun x hx => hb x (by simp [hx]))
    have : b * 2 ^ rest.length ≤ 2 ^ rest.length := by
      calc b * 2 ^ rest.length ≤ 1 * 2 ^ rest.length :=
            Nat.mul_le_mul_right _ h1
        _ = 2 ^ rest.length := by ring
    calc b * 2 ^ rest.length + accBits rest < b * 2 ^ rest.length + 2 ^ rest.length :=
          Nat.add_lt_add_left h2 _
      _ ≤ 2 ^ rest.length + 2 ^ rest.length := Nat.add_le_add_right this _
      _ = 2 ^ (b :: rest).length := by simp [List.length_cons, Nat.pow_succ]; ring

theorem accBits_extract (bs : List ℕ) (hb : ∀ b ∈ bs, b ≤ 1) :
    ∀ t, t < bs.length → (accBits bs >>> (bs.length - 1 - t)) &&& 1 = bs.getD t 0 := by
  induction bs with
  | nil => intro t ht; simp at ht
  | cons b rest ih =>
    intro t ht
    have hblt : b ≤ 1 := hb b (by simp)
    have hrest : ∀ x ∈ rest, x ≤ 1 := fun x hx => hb x (by simp [hx])
    have hr : accBits rest < 2 ^ rest.length := accBits_lt rest hrest
    rw [accBits_cons]
    match t with
    | 0 =>
      have hs : (b :: rest).length - 1 - 0 = rest.length := by simp
      rw [hs, Nat.shiftRight_eq_div_pow]
      have : (b * 2 ^ rest.length + accBits rest) / 2 ^ rest.length = b := by
        rw [Nat.mul_comm b, Nat.mul_add_div (Nat.two_pow_pos _)]
        rw [Nat.div_eq_of_lt hr, Nat.add_zero]
      rw [this]
      interval_cases b <;> simp
    | t + 1 =>
      have htr : t < rest.length := by simpa using ht
      have hs : (b :: rest).length - 1 - (t + 1) = rest.length - 1 - t := by
        simp [List.length_cons]
        omega
      rw [hs]
      set s := rest.length - 1 - t with hsdef
      have hslt : s < rest.length := by omega
      have hsplit : b * 2 ^ rest.length = 2 ^ s * (b * 2 ^ (rest.length - s)) := by
        rw [← Nat.mul_assoc, Nat.mul_comm (2 ^ s), Nat.mul_assoc, ← Nat.pow_add]
        congr 2
        omega
      rw [Nat.shiftRight_eq_div_pow, hsplit, Nat.mul_add_div (Nat.two_pow_pos _)]
      have heven : (b * 2 ^ (rest.length - s)) % 2 = 0 := by
        have : rest.length - s = (rest.length - s - 1) + 1 := by omega
        rw [this, Nat.pow_succ, ← Nat.mul_assoc]
        exact Nat.mul_mod_left _ _
      rw [Nat.and_one_is_mod]
      have hdrop :
          (b * 2 ^ (rest.length - s) + accBits rest / 2 ^ s) % 2 =
            (accBits rest / 2 ^ s) % 2 := by omega
      rw [hdrop, ← Nat.and_one_is_mod, ← Nat.shiftRight_eq_div_pow]
      exact ih hrest t htr

theorem accBits_ofBits (n x : ℕ) :
    accBits ((List.range n).map (fun t => (x >>> (n - 1 - t)) &&& 1)) = x % 2 ^ n := by
  induction n with
  | zero => simp [accBits, Nat.mod_one]
  | succ n ih =>
    rw [List.range_succ_eq_map, List.map_cons, List.map_map]
    have hhead : (x >>> (n + 1 - 1 - 0)) &&& 1 = (x >>> n) &&& 1 := by norm_num
    have htail :
        (List.range n).map ((fun t => (x >>> (n + 1 - 1 - t)) &&& 1) ∘ Nat.succ) =
          (List.range n).map (fun t => (x >>> (n - 1 - t)) &&& 1) := by
      apply List.map_congr_left
      intro t _
      simp only [Function.comp]
      congr 2
      omega
    rw [accBits_cons, hhead, htail, ih]
    simp only [List.length_map, List.length_range]
    rw [Nat.and_one_is_mod, Nat.shiftRight_eq_div_pow, Nat.mod_pow_succ]
    ring

theorem syndrome_tables_linear :
    ∀ a < 32, ∀ b < 32,
      (high_syndrome.getD (a ^^^ b) 0 =
        high_syndrome.getD a 0 ^^^ high_syndrome.getD b 0) ∧
      (low_syndrome.getD (a ^^^ b) 0 =
        low_syndrome.getD a 0 ^^^ low_syndrome.getD b 0) := by decide

theorem syndrome_tables_lt :
    ∀ a < 32, high_syndrome.getD a 0 < 32 ∧ low_syndrome.getD a 0 < 32 := by decide

theorem syndrome_single_ne_zero : ∀ b < 10, syndrome (1 <<< b) ≠ 0 := by decide

theorem syndrome_double_ne_zero :
    ∀ b < 10, ∀ b' < 10, b ≠ b' → syndrome ((1 <<< b) ^^^ (1 <<< b')) ≠ 0 := by decide

theorem syndrome_single_ne_pow :
    ∀ b < 10, ∀ e < 5, syndrome (1 <<< b) ≠ 1 <<< e := by decide

theorem and_mask5_lt (x : ℕ) : x &&& 0x1f < 32 := by
  have : x &&& 0x1f < 2 ^ 5 := Nat.and_lt_two_pow _ (by norm_num)
  simpa using this

theorem xor_mix (a x b y : ℕ) : (a ^^^ x) ^^^ (b ^^^ y) = (a ^^^ b) ^^^ (x ^^^ y) := by
  rw [Nat.xor_assoc, Nat.xor_assoc]
  congr 1
  rw [← Nat.xor_assoc, ← Nat.xor_assoc, Nat.xor_comm x b]

theorem syndrome_lt (i : ℕ) : syndrome i < 32 := by
  have h1 := and_mask5_lt (i >>> 5)
  have h2 := and_mask5_lt i
  have h32 : (32 : ℕ) = 2 ^ 5 := by norm_num
  unfold syndrome
  rw [h32]
  exact Nat.xor_lt_two_pow (h32 ▸ (syndrome_tables_lt _ h1).1)
    (h32 ▸ (syndrome_tables_lt _ h2).2)

theorem encode_lt {i : ℕ} (hi : i < 1024) : encode i < 32768 := by
  have h1 : i < 2 ^ 15 := lt_of_lt_of_le hi (by norm_num)
  have h2 : (syndrome i) <<< 10 < 2 ^ 15 := by
    rw [Nat.shiftLeft_eq]
    have hs := syndrome_lt i
    have e1 : (2 : ℕ) ^ 10 = 1024 := by norm_num
    have e2 : (2 : ℕ) ^ 15 = 32768 := by norm_num
    rw [e1, e2]
    omega
  have : encode i < 2 ^ 15 := Nat.or_lt_two_pow h1 h2
  simpa using this

theorem encode_and_low {i : ℕ} (hi : i < 1024) : encode i &&& 1023 = i := by
  unfold encode
  rw [Nat.and_distrib_right]
  have h1 : i &&& 1023 = i := by
    have : (1023 : ℕ) = 2 ^ 10 - 1 := by norm_num
    rw [this]
    exact Nat.and_pow_two_sub_one_of_lt_two_pow (by simpa using hi)
  have h2 : (syndrome i <<< 10) &&& 1023 = 0 := by
    have : (1023 : ℕ) = 2 ^ 10 - 1 := by norm_num
    rw [this, Nat.and_pow_two_sub_one_eq_mod, Nat.shiftLeft_eq]
    exact Nat.mul_mod_left _ _
  rw [h1, h2, Nat.or_zero]

theorem encode_shiftRight {i : ℕ} (hi : i < 1024) : encode i >>> 10 = syndrome i := by
  unfold encode
  rw [shiftRight_or, Nat.shiftLeft_shiftRight]
  have : i >>> 10 = 0 := by
    rw [Nat.shiftRight_eq_div_pow]
    exact Nat.div_eq_of_lt (by simpa using hi)
  rw [this, Nat.zero_or]

theorem encode_inj {i j : ℕ} (hi : i < 1024) (hj : j < 1024)
    (h : encode i = encode j) : i = j := by
  have h1 := encode_and_low hi
  have h2 := encode_and_low hj
  rw [← h1, ← h2, h]

theorem syndrome_linear (a b : ℕ) : syndrome (a ^^^ b) = syndrome a ^^^ syndrome b := by
  have hia := and_mask5_lt (a >>> 5)
  have hib := and_mask5_lt (b >>> 5)
  have hla := and_mask5_lt a
  have hlb := and_mask5_lt b
  have hhi : ((a ^^^ b) >>> 5) &&& 0x1f = ((a >>> 5) &&& 0x1f) ^^^ ((b >>> 5) &&& 0x1f) := by
    rw [shiftRight_xor, Nat.and_xor_distrib_right]
  have hlo : (a ^^^ b) &&& 0x1f = (a &&& 0x1f) ^^^ (b &&& 0x1f) := by
    rw [Nat.and_xor_distrib_right]
  unfold syndrome
  rw [hhi, hlo,
    (syndrome_tables_linear _ hia _ hib).1,
    (syndrome_tables_linear _ hla _ hlb).2]
  rw [xor_mix]

theorem encode_eq_xor {i : ℕ} (hi : i < 1024) :
    encode i = i ^^^ (syndrome i) <<< 10 :=
  or_eq_xor_of_lt _ 10 (by simpa using hi)

theorem encode_linear {a b : ℕ} (ha : a < 1024) (hb : b < 1024) :
    encode a ^^^ encode b = encode (a ^^^ b) := by
  have hxab : a ^^^ b < 1024 := by
    have : a ^^^ b < 2 ^ 10 :=
      Nat.xor_lt_two_pow (by simpa using ha) (by simpa using hb)
    simpa using this
  rw [encode_eq_xor ha, encode_eq_xor hb, encode_eq_xor hxab, syndrome_linear,
    ← shiftLeft_xor, xor_mix]

theorem encode_parts {x y : ℕ} (hx : x < 1024) (h : encode x = y) :
    x = y &&& 1023 ∧ syndrome x = y >>> 10 := by
  constructor
  · rw [← h, encode_and_low hx]
  · rw [← h, encode_shiftRight hx]

/-- A nonzero codeword of a nonzero data value is never a single power of two:
the code has no weight-1 or weight-2 codewords. -/
theorem encode_ne_pow {x : ℕ} (hx : x < 1024) (hx0 : x ≠ 0) :
    ∀ b < 15, encode x ≠ 1 <<< b := by
  intro b hb h
  rcases Nat.lt_or_ge b 10 with hb10 | hb10
  · obtain ⟨h1, h2⟩ := encode_parts hx h
    rw [two_pow_and_low_of_lt hb10] at h1
    rw [two_pow_shiftRight_ten_zero hb10] at h2
    exact syndrome_single_ne_zero b hb10 (h1 ▸ h2)
  · obtain ⟨h1, _⟩ := encode_parts hx h
    rw [two_pow_and_low hb10] at h1
    exact hx0 h1

/-- Nor is a codeword of a nonzero data value ever the XOR of two distinct
powers of two. -/
theorem encode_ne_pow_xor {x : ℕ} (hx : x < 1024) (hx0 : x ≠ 0) :
    ∀ b < 15, ∀ b' < 15, b ≠ b' → encode x ≠ (1 <<< b) ^^^ (1 <<< b') := by
  have mixed : ∀ b < 10, ∀ b', 10 ≤ b' → b' < 15 →
      encode x ≠ (1 <<< b) ^^^ (1 <<< b') := by
    intro b hb b' hb'10 hb' h
    obtain ⟨h1, h2⟩ := encode_parts hx h
    rw [Nat.and_xor_distrib_right, two_pow_and_low_of_lt hb, two_pow_and_low hb'10,
      Nat.xor_zero] at h1
    rw [shiftRight_xor, two_pow_shiftRight_ten_zero hb, two_pow_shiftRight_ten hb'10,
      Nat.zero_xor] at h2
    exact syndrome_single_ne_pow b hb (b' - 10) (by omega) (h1 ▸ h2)
  intro b hb b' hb' hne h
  rcases Nat.lt_or_ge b 10 with hb10 | hb10 <;> rcases Nat.lt_or_ge b' 10 with hb'10 | hb'10
  · obtain ⟨h1, h2⟩ := encode_parts hx h
    rw [Nat.and_xor_distrib_right, two_pow_and_low_of_lt hb10,
      two_pow_and_low_of_lt hb'10] at h1
    rw [shiftRight_xor, two_pow_shiftRight_ten_zero hb10,
      two_pow_shiftRight_ten_zero hb'10, Nat.xor_zero] at h2
    exact syndrome_double_ne_zero b hb10 b' hb'10 hne (h1 ▸ h2)
  · exact mixed b hb10 b' hb'10 hb' h
  · exact mixed b' hb'10 b hb10 hb (by rw [Nat.xor_comm] at h; exact h)
  · obtain ⟨h1, _⟩ := encode_parts hx h
    rw [Nat.and_xor_distrib_right, two_pow_and_low hb10, two_pow_and_low hb'10] at h1
    simp at h1
    exact hx0 h1

theorem xor_swap_eq {a b c d : ℕ} (h : a ^^^ b = c ^^^ d) : a ^^^ c = b ^^^ d := by
  have h0 : (a ^^^ b) ^^^ (c ^^^ d) = 0 := by rw [h, Nat.xor_self]
  exact eq_of_xor_eq_zero ((xor_mix a c b d) ▸ h0)

/-- No valid codeword is a one-bit corruption of a valid codeword. -/
theorem valid_ne_flip {j j' b : ℕ} (hj : j < 1024) (hj' : j' < 1024) (hb : b < 15) :
    encode j ≠ encode j' ^^^ (1 <<< b) := by
  intro h
  have hx := xor_left_eq h
  by_cases hjj : j = j'
  · subst hjj
    rw [Nat.xor_self] at hx
    have : (0 : ℕ) < 1 <<< b := by
      rw [Nat.one_shiftLeft]; exact Nat.two_pow_pos b
    omega
  · rw [encode_linear hj hj'] at hx
    have hne : j ^^^ j' ≠ 0 := fun h0 => hjj (eq_of_xor_eq_zero h0)
    have hlt : j ^^^ j' < 1024 := by
      have : j ^^^ j' < 2 ^ 10 :=
        Nat.xor_lt_two_pow (by simpa using hj) (by simpa using hj')
      simpa using this
    exact encode_ne_pow hlt hne b hb hx

/-- Distinct (valid codeword, flipped bit) pairs corrupt to distinct codes:
the radius-1 balls around valid codewords are pairwise disjoint. -/
theorem flip_inj {j j' b b' : ℕ} (hj : j < 1024) (hj' : j' < 1024)
    (hb : b < 15) (hb' : b' < 15)
    (h : encode j ^^^ (1 <<< b) = encode j' ^^^ (1 <<< b')) : j = j' ∧ b = b' := by
  have hx : encode j ^^^ encode j' = (1 <<< b) ^^^ (1 <<< b') := xor_swap_eq h
  have hpow : ∀ {u v : ℕ}, 1 <<< u = 1 <<< v → u = v := by
    intro u v huv
    rw [Nat.one_shiftLeft, Nat.one_shiftLeft] at huv
    exact Nat.pow_right_injective (le_refl 2) huv
  by_cases hjj : j = j'
  · subst hjj
    rw [Nat.xor_self] at hx
    exact ⟨rfl, hpow (eq_of_xor_eq_zero hx.symm)⟩
  · exfalso
    rw [encode_linear hj hj'] at hx
    have hne : j ^^^ j' ≠ 0 := fun h0 => hjj (eq_of_xor_eq_zero h0)
    have hlt : j ^^^ j' < 1024 := by
      have : j ^^^ j' < 2 ^ 10 :=
        Nat.xor_lt_two_pow (by simpa using hj) (by simpa using hj')
      simpa using this
    by_cases hbb : b = b'
    · subst hbb
      rw [Nat.xor_self] at hx
      obtain ⟨h1, _⟩ := encode_parts hlt hx
      simp at h1
      exact hjj h1
    · exact encode_ne_pow_xor hlt hne b hb b' hb' hbb hx

theorem dinsert_same (m : EccMap) (k : ℕ) (v : ℕ × ℕ) : dinsert m k v k = some v := by
  simp [dinsert]

theorem dinsert_other (m : EccMap) {k x : ℕ} (v : ℕ × ℕ) (h : x ≠ k) :
    dinsert m k v x = m x := by
  simp [dinsert, h]

theorem pass1_fold_valid :
    ∀ (n : ℕ), n ≤ 1024 → ∀ j < n,
      ((List.range n).foldl validWrite emptyEcc) (encode j) = some (1, encode j) := by
  intro n
  induction n with
  | zero => intro _ j hj; omega
  | succ n ih =>
    intro hn j hj
    rw [List.range_succ, List.foldl_append]
    simp only [List.foldl_cons, List.foldl_nil]
    show dinsert ((List.range n).foldl validWrite emptyEcc) (encode n) (1, encode n)
        (encode j) = some (1, encode j)
    by_cases hjn : j = n
    · subst hjn
      exact dinsert_same _ _ _
    · have hj' : j < n := by omega
      rw [dinsert_other _ _ (fun h => hjn (encode_inj (by omega) (by omega) h))]
      exact ih (by omega) j hj'

theorem pass1_fold_none :
    ∀ (n : ℕ) {x : ℕ}, (∀ i < n, encode i ≠ x) →
      ((List.range n).foldl validWrite emptyEcc) x = none := by
  intro n
  induction n with
  | zero => intro x _; simp [emptyEcc]
  | succ n ih =>
    intro x hx
    rw [List.range_succ, List.foldl_append]
    simp only [List.foldl_cons, List.foldl_nil]
    show dinsert ((List.range n).foldl validWrite emptyEcc) (encode n) (1, encode n) x = none
    rw [dinsert_other _ _ (fun h => hx n (by omega) h.symm)]
    exact ih (fun i hi => hx i (by omega))

theorem eccPass1_valid {j : ℕ} (hj : j < 1024) :
    eccPass1 (encode j) = some (1, encode j) :=
  pass1_fold_valid 1024 (le_refl _) j hj

theorem eccPass1_none {x : ℕ} (hx : ∀ i < 1024, encode i ≠ x) : eccPass1 x = none :=
  pass1_fold_none 1024 hx

theorem flipWrites_fold_no_touch {k x : ℕ} :
    ∀ (bs : List ℕ) (m : EccMap), (∀ b ∈ bs, k ^^^ (1 <<< b) ≠ x) →
      (bs.foldl (fun m' b => dinsert m' (k ^^^ (1 <<< b)) (2, k)) m) x = m x := by
  intro bs
  induction bs with
  | nil => intro m _; rfl
  | cons b rest ih =>
    intro m h
    simp only [List.foldl_cons]
    rw [ih _ (fun b' hb' => h b' (by simp [hb']))]
    exact dinsert_other _ _ (fun he => h b (by simp) he.symm)

theorem flipWrites_fold_hit {k x b : ℕ} :
    ∀ (bs : List ℕ) (m : EccMap), b ∈ bs → x = k ^^^ (1 <<< b) →
      (∀ b' ∈ bs, k ^^^ (1 <<< b') = x → b' = b) →
      (bs.foldl (fun m' b' => dinsert m' (k ^^^ (1 <<< b')) (2, k)) m) x = some (2, k) := by
  intro bs
  induction bs with
  | nil => intro m hmem; simp at hmem
  | cons b0 rest ih =>
    intro m hmem hx hinj
    simp only [List.foldl_cons]
    by_cases hbr : b ∈ rest
    · exact ih _ hbr hx (fun b' hb' => hinj b' (by simp [hb']))
    · have hb0 : b0 = b := by
        rcases List.mem_cons.mp hmem with h | h
        · exact h.symm
        · exact absurd h hbr
      subst hb0
      rw [flipWrites_fold_no_touch rest _
        (fun b' hb' he => hbr (hinj b' (by simp [hb']) he ▸ hb'))]
      rw [hx]
      exact dinsert_same _ _ _

theorem pass2_fold_no_touch {x : ℕ} :
    ∀ (ks : List ℕ) (m : EccMap), (∀ k ∈ ks, ∀ b < 15, k ^^^ (1 <<< b) ≠ x) →
      (ks.foldl flipWrites m) x = m x := by
  intro ks
  induction ks with
  | nil => intro m _; rfl
  | cons k rest ih =>
    intro m h
    simp only [List.foldl_cons]
    rw [ih _ (fun k' hk' => h k' (by simp [hk']))]
    exact flipWrites_fold_no_touch _ _
      (fun b hb => h k (by simp) b (by simpa using List.mem_range.mp hb))

theorem pass2_fold_hit {j b : ℕ} (hj : j < 1024) (hb : b < 15) :
    ∀ (ks : List ℕ) (m : EccMap), encode j ∈ ks →
      (∀ k ∈ ks, ∃ j', j' < 1024 ∧ k = encode j') →
      (ks.foldl flipWrites m) (encode j ^^^ (1 <<< b)) = some (2, encode j) := by
  intro ks
  induction ks with
  | nil => intro m hmem; simp at hmem
  | cons k rest ih =>
    intro m hmem hsub
    simp only [List.foldl_cons]
    by_cases hr : encode j ∈ rest
    · exact ih _ hr (fun k' hk' => hsub k' (by simp [hk']))
    · have hk : k = encode j := by
        rcases List.mem_cons.mp hmem with h | h
        · exact h.symm
        · exact absurd h hr
      subst hk
      rw [pass2_fold_no_touch rest _ ?_]
      · apply flipWrites_fold_hit (List.range 15) m (List.mem_range.mpr hb) rfl
        intro b' hb' he
        exact (flip_inj hj hj (by simpa using List.mem_range.mp hb') hb he).2
      · intro k' hk' b' hb' he
        obtain ⟨j'', hj'', hk''⟩ := hsub k' (by simp [hk'])
        subst hk''
        have := (flip_inj hj'' hj hb' hb he).1
        subst this
        exact hr hk'

theorem eccPass2_flip {j b : ℕ} (hj : j < 1024) (hb : b < 15) :
    eccPass2 (encode j ^^^ (1 <<< b)) = some (2, encode j) := by
  apply pass2_fold_hit hj hb
  · exact List.mem_map.mpr ⟨j, List.mem_range.mpr hj, rfl⟩
  · intro k hk
    obtain ⟨j', hj', rfl⟩ := List.mem_map.mp hk
    exact ⟨j', List.mem_range.mp hj', rfl⟩

theorem eccPass2_valid {j : ℕ} (hj : j < 1024) :
    eccPass2 (encode j) = some (1, encode j) := by
  unfold eccPass2
  rw [pass2_fold_no_touch]
  · exact eccPass1_valid hj
  · intro k hk b hb he
    obtain ⟨j', hj', rfl⟩ := List.mem_map.mp hk
    exact valid_ne_flip hj (List.mem_range.mp hj') hb he.symm

theorem eccPass2_none {x : ℕ} (hnv : ∀ j < 1024, encode j ≠ x)
    (hnf : ∀ j < 1024, ∀ b < 15, encode j ^^^ (1 <<< b) ≠ x) : eccPass2 x = none := by
  unfold eccPass2
  rw [pass2_fold_no_touch]
  · exact eccPass1_none hnv
  · intro k hk b hb
    obtain ⟨j', hj', rfl⟩ := List.mem_map.mp hk
    exact hnf j' (List.mem_range.mp hj') b hb

theorem fillStep_preserve {m : EccMap} {x : ℕ} {v : ℕ × ℕ} (i : ℕ)
    (h : m x = some v) : fillStep m i x = some v := by
  unfold fillStep
  cases hm : m i with
  | none =>
    show dinsert m i (0, 0) x = some v
    have hxi : x ≠ i := by
      intro he
      rw [he, hm] at h
      cases h
    rw [dinsert_other _ _ hxi]
    exact h
  | some w => exact h

theorem fillStep_other {m : EccMap} {i x : ℕ} (hxi : x ≠ i) : fillStep m i x = m x := by
  unfold fillStep
  cases hm : m i with
  | none => exact dinsert_other m _ hxi
  | some w => rfl

theorem fillStep_fill {m : EccMap} {i : ℕ} (h : m i = none) :
    fillStep m i i = some (0, 0) := by
  unfold fillStep
  rw [h]
  exact dinsert_same _ _ _

theorem pass3_preserve {x : ℕ} {v : ℕ × ℕ} :
    ∀ (l : List ℕ) (m : EccMap), m x = some v → (l.foldl fillStep m) x = some v := by
  intro l
  induction l with
  | nil => intro m h; exact h
  | cons a rest ih =>
    intro m h
    simp only [List.foldl_cons]
    exact ih _ (fillStep_preserve a h)

theorem pass3_untouched {y : ℕ} :
    ∀ (n : ℕ) (m : EccMap), n ≤ y → ((List.range n).foldl fillStep m) y = m y := by
  intro n
  induction n with
  | zero => intro m _; rfl
  | succ n ih =>
    intro m hn
    rw [List.range_succ, List.foldl_append]
    simp only [List.foldl_cons, List.foldl_nil]
    rw [fillStep_other (by omega)]
    exact ih m (by omega)

theorem pass3_fill {x : ℕ} :
    ∀ (n : ℕ) (m : EccMap), x < n → m x = none →
      ((List.range n).foldl fillStep m) x = some (0, 0) := by
  intro n
  induction n with
  | zero => intro m hx; omega
  | succ n ih =>
    intro m hx hm
    rw [List.range_succ, List.foldl_append]
    simp only [List.foldl_cons, List.foldl_nil]
    by_cases hxn : x = n
    · subst hxn
      apply fillStep_fill
      rw [pass3_untouched x m (le_refl x)]
      exact hm
    · exact fillStep_preserve n (ih m (by omega) hm)

/-- Every valid codeword keeps its `Valid` entry in the finished table: the
single-bit-error pass never overwrites a valid code. -/
theorem eccTable_valid {j : ℕ} (hj : j < 1024) :
    eccTable (encode j) = some (1, encode j) :=
  pass3_preserve _ _ (eccPass2_valid hj)

/-- Every single-bit corruption of a valid codeword maps to `(2, that codeword)`
in the finished table. -/
theorem eccTable_flip {j b : ℕ} (hj : j < 1024) (hb : b < 15) :
    eccTable (encode j ^^^ (1 <<< b)) = some (2, encode j) :=
  pass3_preserve _ _ (eccPass2_flip hj hb)

/-- Codes that are neither valid nor one bit from valid get the
`Unrecoverable` entry `(0, 0)`. -/
theorem eccTable_other {x : ℕ} (hx : x < 32768)
    (hnv : ∀ j < 1024, encode j ≠ x)
    (hnf : ∀ j < 1024, ∀ b < 15, encode j ^^^ (1 <<< b) ≠ x) :
    eccTable x = some (0, 0) :=
  pass3_fill 32768 _ hx (eccPass2_none hnv hnf)

theorem eccTable_none_of_ge {x : ℕ} (hx : 32768 ≤ x) : eccTable x = none := by
  unfold eccTable
  rw [pass3_untouched 32768 _ hx]
  apply eccPass2_none
  · intro j hj he
    have := encode_lt hj
    omega
  · intro j hj b hb he
    have h1 : encode j < 2 ^ 15 := by
      have := encode_lt hj; norm_num; omega
    have h2 : 1 <<< b < 2 ^ 15 := by
      rw [Nat.one_shiftLeft]
      exact Nat.pow_lt_pow_right (by norm_num) hb
    have := Nat.xor_lt_two_pow h1 h2
    rw [he] at this
    norm_num at this
    omega

theorem eccTable_total {x : ℕ} (hx : x < 32768) : ∃ v, eccTable x = some v := by
  by_cases hv : ∃ j, j < 1024 ∧ encode j = x
  · obtain ⟨j, hj, rfl⟩ := hv
    exact ⟨_, eccTable_valid hj⟩
  · by_cases hf : ∃ j, j < 1024 ∧ ∃ b, b < 15 ∧ encode j ^^^ (1 <<< b) = x
    · obtain ⟨j, hj, b, hb, rfl⟩ := hf
      exact ⟨_, eccTable_flip hj hb⟩
    · refine ⟨(0, 0), eccTable_other hx ?_ ?_⟩
      · intro j hj he
        exact hv ⟨j, hj, he⟩
      · intro j hj b hb he
        exact hf ⟨j, hj, b, hb, he⟩

/-- The finished table reports status `Valid` exactly at the 1024 codewords. -/
theorem eccTable_status1_iff {x : ℕ} :
    (eccTable x).map Prod.fst = some 1 ↔ ∃ j, j < 1024 ∧ encode j = x := by
  constructor
  · intro h
    by_cases hv : ∃ j, j < 1024 ∧ encode j = x
    · exact hv
    · exfalso
      by_cases hf : ∃ j, j < 1024 ∧ ∃ b, b < 15 ∧ encode j ^^^ (1 <<< b) = x
      · obtain ⟨j, hj, b, hb, rfl⟩ := hf
        rw [eccTable_flip hj hb] at h
        simp at h
      · by_cases hx : x < 32768
        · rw [eccTable_other hx (fun j hj he => hv ⟨j, hj, he⟩)
            (fun j hj b hb he => hf ⟨j, hj, b, hb, he⟩)] at h
          simp at h
        · rw [eccTable_none_of_ge (by omega)] at h
          simp at h
  · rintro ⟨j, hj, rfl⟩
    rw [eccTable_valid hj]
    rfl

theorem foldl_acc_map {α : Type} (f : α → ℕ) (l : List α) :
    l.foldl (fun a r => a * 2 + f r) 0 = accBits (l.map f) := by
  rw [accBits, List.foldl_map]

theorem getD_map_lt (f : ℕ → ℕ) (l : List ℕ) {j : ℕ} (hj : j < l.length) :
    (l.map f).getD j 0 = f (l.getD j 0) := by
  have hj' : j < (l.map f).length := by simpa using hj
  simp [List.getD_eq_getElem?_getD, List.getElem?_eq_getElem hj',
    List.getElem?_eq_getElem hj]

theorem buildColumns_mkRow (cs : List ℕ) (hlen : cs.length = 32)
    (hlt : ∀ c ∈ cs, c < 32768) :
    buildColumns ((List.range 15).map (mkRow cs)) = cs := by
  unfold buildColumns
  apply List.ext_get
  · simpa using hlen.symm
  intro i h1 h2
  have hi : i < 32 := by simpa using h1
  simp only [List.get_eq_getElem, List.getElem_map, List.getElem_range]
  rw [foldl_acc_map, List.map_map]
  have hstep :
      (List.range 15).map
          ((fun row => (row >>> (31 - i)) &&& 1) ∘ mkRow cs) =
        (List.range 15).map (fun r => (cs.getD i 0 >>> (14 - r)) &&& 1) := by
    apply List.map_congr_left
    intro r _
    simp only [Function.comp]
    have hmk : mkRow cs r =
        accBits (cs.map (fun c => (c >>> (14 - r)) &&& 1)) :=
      foldl_acc_map _ cs
    rw [hmk]
    have hext := accBits_extract (cs.map (fun c => (c >>> (14 - r)) &&& 1))
      (by
        intro b hb
        obtain ⟨c, _, rfl⟩ := List.mem_map.mp hb
        exact Nat.and_le_right)
      i (by simpa [hlen] using hi)
    rw [List.length_map, hlen] at hext
    rw [show (32 : ℕ) - 1 - i = 31 - i by omega] at hext
    rw [hext, getD_map_lt _ _ (by omega : i < cs.length)]
  rw [hstep]
  have hof := accBits_ofBits 15 (cs.getD i 0)
  simp only [show ∀ t : ℕ, (15 : ℕ) - 1 - t = 14 - t from fun t => by omega] at hof
  rw [hof]
  have hmem : cs.getD i 0 ∈ cs := by
    have : i < cs.length := by omega
    rw [List.getD_eq_getElem?_getD, List.getElem?_eq_getElem this]
    exact List.getElem_mem _
  have hcd : cs.getD i 0 < 2 ^ 15 := by
    have h15 : (2 : ℕ) ^ 15 = 32768 := by norm_num
    have h' := hlt _ hmem
    omega
  rw [Nat.mod_eq_of_lt hcd]
  have : i < cs.length := by omega
  rw [List.getD_eq_getElem?_getD, List.getElem?_eq_getElem this]
  rfl

theorem fixColumn_valid {j : ℕ} (hj : j < 1024) :
    fixColumn (encode j) = .ok (encode j) := by
  unfold fixColumn
  rw [eccTable_valid hj]
  rfl

theorem fixColumn_flip {j b : ℕ} (hj : j < 1024) (hb : b < 15) :
    fixColumn (encode j ^^^ (1 <<< b)) = .ok (encode j) := by
  unfold fixColumn
  rw [eccTable_flip hj hb]
  rfl

theorem fixColumn_unrec {x : ℕ} (h : eccTable x = some (0, 0)) :
    fixColumn x = .error "Error!!" := by
  unfold fixColumn
  rw [h]
  rfl

theorem fixColumns_forall2 {xs ys : List ℕ}
    (h : List.Forall₂ (fun a b' => fixColumn a = .ok b') xs ys) :
    fixColumns xs = .ok ys := by
  induction h with
  | nil => rfl
  | @cons a b' as bs hab _ ih =>
    simp only [fixColumns]
    rw [hab, ih]
    rfl

theorem fixColumn_error_eq {c : ℕ} (h : eccTable c ≠ none) {e : String}
    (he : fixColumn c = .error e) : e = "Error!!" := by
  unfold fixColumn at he
  cases ht : eccTable c with
  | none => exact absurd ht h
  | some t =>
    rw [ht] at he
    by_cases h2 : t.1 = 2
    · simp [fixLookup, h2] at he
    · by_cases h0 : t.1 = 0
      · simp [fixLookup, h2, h0] at he
        exact he.symm
      · simp [fixLookup, h2, h0] at he

theorem fixColumns_error {xs : List ℕ} (hall : ∀ c ∈ xs, eccTable c ≠ none)
    (hbad : ∃ c ∈ xs, eccTable c = some (0, 0)) :
    fixColumns xs = .error "Error!!" := by
  induction xs with
  | nil =>
    obtain ⟨c, hc, _⟩ := hbad
    simp at hc
  | cons a rest ih =>
    simp only [fixColumns]
    cases hfa : fixColumn a with
    | error e =>
      rw [fixColumn_error_eq (hall a (by simp)) hfa]
      rfl
    | ok v =>
      have hanot : eccTable a ≠ some (0, 0) := by
        intro h0
        rw [fixColumn_unrec h0] at hfa
        cases hfa
      obtain ⟨c, hc, hc0⟩ := hbad
      have hcr : c ∈ rest := by
        rcases List.mem_cons.mp hc with rfl | hr
        · exact absurd hc0 hanot
        · exact hr
      rw [ih (fun c' hc' => hall c' (by simp [hc'])) ⟨c, hcr, hc0⟩]
      rfl

theorem buildColumns_lt (rows : List ℕ) (hlen : rows.length = 15) :
    ∀ c ∈ buildColumns rows, c < 32768 := by
  intro c hc
  unfold buildColumns at hc
  obtain ⟨j, _, rfl⟩ := List.mem_map.mp hc
  rw [foldl_acc_map]
  have hb := accBits_lt (rows.map (fun row => (row >>> (31 - j)) &&& 1))
    (by
      intro b hb'
      obtain ⟨r, _, rfl⟩ := List.mem_map.mp hb'
      exact Nat.and_le_right)
  rw [List.length_map, hlen] at hb
  have h15 : (2 : ℕ) ^ 15 = 32768 := by norm_num
  omega

theorem eccTable_at_zero : eccTable 0 = some (1, 0) := by
  have h : encode 0 = 0 := by decide
  have hv := eccTable_valid (j := 0) (by norm_num)
  rwa [h] at hv

theorem encode_ne_three : ∀ j < 1024, encode j ≠ 3 := by
  have h3 : encode (3 &&& 1023) ≠ 3 := by decide
  intro j hj he
  have hj3 := (encode_parts hj he).1
  exact h3 (hj3 ▸ he)

theorem flip_ne_three : ∀ j < 1024, ∀ b < 15, encode j ^^^ (1 <<< b) ≠ 3 := by
  have hb15 : ∀ b < 15, encode ((3 ^^^ (1 <<< b)) &&& 1023) ≠ 3 ^^^ (1 <<< b) := by decide
  intro j hj b hb he
  have hx : encode j = 3 ^^^ (1 <<< b) := by
    have h1 : encode j ^^^ (1 <<< b) ^^^ (1 <<< b) = 3 ^^^ (1 <<< b) := by rw [he]
    rwa [Nat.xor_assoc, Nat.xor_self, Nat.xor_zero] at h1
  have hj3 := (encode_parts hj hx).1
  exact hb15 b hb (hj3 ▸ hx)

theorem eccTable_at_three : eccTable 3 = some (0, 0) :=
  eccTable_other (by norm_num) encode_ne_three flip_ne_three

theorem fixColumn_zero : fixColumn 0 = .ok 0 := by
  unfold fixColumn
  rw [eccTable_at_zero]
  rfl

theorem fixColumn_three : fixColumn 3 = .error "Error!!" :=
  fixColumn_unrec eccTable_at_three

theorem getD_eq_elem {l : List ℕ} {j : ℕ} (hj : j < l.length) : l.getD j 0 = l[j] := by
  rw [List.getD_eq_getElem?_getD, List.getElem?_eq_getElem hj]
  rfl

theorem getD_mem {l : List ℕ} {j : ℕ} (hj : j < l.length) : l.getD j 0 ∈ l := by
  rw [getD_eq_elem hj]
  exact List.getElem_mem _

theorem forall2_valid {ds : List ℕ} (h : ∀ d ∈ ds, d < 1024) :
    List.Forall₂ (fun a b' => fixColumn a = .ok b') (ds.map encode) (ds.map encode) := by
  induction ds with
  | nil => exact List.Forall₂.nil
  | cons d rest ih =>
    simp only [List.map_cons]
    exact List.Forall₂.cons (fixColumn_valid (h d (by simp)))
      (ih (fun x hx => h x (by simp [hx])))

theorem map_mask_encode {ds : List ℕ} (hlt : ∀ d ∈ ds, d < 1024) :
    (ds.map encode).map (fun c => c &&& 0x3ff) = ds := by
  rw [List.map_map]
  have h : ds.map ((fun c => c &&& 0x3ff) ∘ encode) = ds.map id := by
    apply List.map_congr_left
    intro d hd
    show encode d &&& 0x3ff = d
    exact encode_and_low (hlt d hd)
  rw [h, List.map_id]

/-- C1: after `CreateECCTable` finishes, the table is defined on exactly the
32768 fifteen-bit codes (one entry each), and exactly 1024 entries have status
`Valid`. -/
theorem C1_ecc_table_completeness :
    (∀ c : ℕ, (∃ v, eccTable c = some v) ↔ c < 32768) ∧
      ((Finset.range 32768).filter
        (fun c => (eccTable c).map Prod.fst = some 1)).card = 1024 := by
  constructor
  · intro c
    constructor
    · rintro ⟨v, hv⟩
      by_contra hc
      rw [eccTable_none_of_ge (by omega)] at hv
      cases hv
    · exact eccTable_total
  · have hset : (Finset.range 32768).filter
        (fun c => (eccTable c).map Prod.fst = some 1) =
        (Finset.range 1024).image encode := by
      ext c
      simp only [Finset.mem_filter, Finset.mem_range, Finset.mem_image]
      constructor
      · rintro ⟨_, h1⟩
        obtain ⟨j, hj, he⟩ := eccTable_status1_iff.mp h1
        exact ⟨j, hj, he⟩
      · rintro ⟨j, hj, rfl⟩
        refine ⟨?_, eccTable_status1_iff.mpr ⟨j, hj, rfl⟩⟩
        have := encode_lt hj
        omega
    have hinj : Set.InjOn encode ↑(Finset.range 1024) := by
      intro a ha b hb h
      exact encode_inj (by simpa using ha) (by simpa using hb) h
    rw [hset, Finset.card_image_of_injOn hinj, Finset.card_range]

/-- C2: for every code `c` whose table entry has status `Valid` and every bit
position `b < 15`, the table maps `c ^^^ (1 <<< b)` to status `Corrected` with
a target that is itself a `Valid` codeword within Hamming distance 1 of the
flipped code. -/
theorem C2_ecc_table_correctness (c v : ℕ) (h : eccTable c = some (1, v))
    (b : ℕ) (hb : b < 15) :
    ∃ c', eccTable (c ^^^ (1 <<< b)) = some (2, c') ∧
      (∃ v', eccTable c' = some (1, v')) ∧
      (c' = c ^^^ (1 <<< b) ∨ ∃ t, c' ^^^ (c ^^^ (1 <<< b)) = 1 <<< t) := by
  have h1 : (eccTable c).map Prod.fst = some 1 := by rw [h]; rfl
  obtain ⟨j, hj, rfl⟩ := eccTable_status1_iff.mp h1
  refine ⟨encode j, eccTable_flip hj hb, ⟨encode j, eccTable_valid hj⟩,
    Or.inr ⟨b, ?_⟩⟩
  rw [← Nat.xor_assoc, Nat.xor_self, Nat.zero_xor]

theorem C2_ecc_table_correctness_witness :
    ∃ c', eccTable (0 ^^^ (1 <<< 0)) = some (2, c') ∧
      (∃ v', eccTable c' = some (1, v')) ∧
      (c' = 0 ^^^ (1 <<< 0) ∨ ∃ t, c' ^^^ (0 ^^^ (1 <<< 0)) = 1 <<< t) :=
  C2_ecc_table_correctness 0 0 eccTable_at_zero 0 (by norm_num)

/-- C3: encoding 32 ten-bit values into their codewords, laying them out as a
15-row chunk (bit `31 - j` of row `i` is bit `14 - i` of codeword `j`) and
decoding the chunk returns exactly those 32 codewords, and masking with
`0x3ff` recovers the original data values. -/
theorem C3_round_trip (ds : List ℕ) (hlen : ds.length = 32)
    (hlt : ∀ d ∈ ds, d < 1024) :
    DecodeChunk ((List.range 15).map (mkRow (ds.map encode))) =
      .ok (ds.map encode) ∧
      (ds.map encode).map (fun c => c &&& 0x3ff) = ds := by
  have hcslen : (ds.map encode).length = 32 := by simpa using hlen
  have hcslt : ∀ c ∈ ds.map encode, c < 32768 := by
    intro c hc
    obtain ⟨d, hd, rfl⟩ := List.mem_map.mp hc
    exact encode_lt (hlt d hd)
  refine ⟨?_, map_mask_encode hlt⟩
  unfold DecodeChunk
  rw [buildColumns_mkRow _ hcslen hcslt]
  exact fixColumns_forall2 (forall2_valid hlt)

theorem C3_round_trip_witness :
    DecodeChunk ((List.range 15).map (mkRow ((List.replicate 32 0).map encode))) =
      .ok ((List.replicate 32 0).map encode) ∧
      ((List.replicate 32 0).map encode).map (fun c => c &&& 0x3ff) =
        List.replicate 32 0 :=
  C3_round_trip _ (by decide) (by decide)

/-- C4: same synthetic chunk as C3, but with exactly one bit (position `b`) of
column `j`'s codeword flipped before the chunk is laid out; the decoder still
returns the original 32 codewords, hence the original data. -/
theorem C4_single_bit_correction (ds : List ℕ) (hlen : ds.length = 32)
    (hlt : ∀ d ∈ ds, d < 1024) (j b : ℕ) (hj : j < 32) (hb : b < 15) :
    DecodeChunk ((List.range 15).map (mkRow
      ((ds.map encode).set j (((ds.map encode).getD j 0) ^^^ (1 <<< b))))) =
      .ok (ds.map encode) ∧
      (ds.map encode).map (fun c => c &&& 0x3ff) = ds := by
  have hdslen : j < ds.length := by omega
  have h15 : (2 : ℕ) ^ 15 = 32768 := by norm_num
  have hshift : 1 <<< b < 2 ^ 15 := by
    rw [Nat.one_shiftLeft]
    exact Nat.pow_lt_pow_right (by norm_num) hb
  have hget : (ds.map encode).getD j 0 = encode (ds.getD j 0) :=
    getD_map_lt encode ds hdslen
  have hdj : ds.getD j 0 < 1024 := hlt _ (getD_mem hdslen)
  have hsetlen :
      ((ds.map encode).set j (((ds.map encode).getD j 0) ^^^ (1 <<< b))).length =
        32 := by
    simpa using hlen
  have hsetlt : ∀ c ∈ (ds.map encode).set j
      (((ds.map encode).getD j 0) ^^^ (1 <<< b)), c < 32768 := by
    intro c hc
    rw [List.mem_iff_getElem] at hc
    obtain ⟨i, hi, rfl⟩ := hc
    rw [List.getElem_set]
    by_cases hij : j = i
    · simp only [if_pos hij]
      rw [hget]
      have := Nat.xor_lt_two_pow (encode_lt hdj) hshift
      omega
    · simp only [if_neg hij]
      have hi' : i < (ds.map encode).length := by
        simpa [List.length_set] using hi
      rw [List.getElem_map]
      exact encode_lt (hlt _ (List.getElem_mem _))
  have hforall : List.Forall₂ (fun a b' => fixColumn a = .ok b')
      ((ds.map encode).set j (((ds.map encode).getD j 0) ^^^ (1 <<< b)))
      (ds.map encode) := by
    rw [List.forall₂_iff_get]
    constructor
    · simp
    · intro i h1 h2
      simp only [List.get_eq_getElem]
      have hi' : i < ds.length := by simpa using h2
      rw [List.getElem_set]
      by_cases hij : j = i
      · simp only [if_pos hij]
        subst hij
        rw [hget, List.getElem_map, ← getD_eq_elem hdslen]
        exact fixColumn_flip hdj hb
      · simp only [if_neg hij]
        rw [List.getElem_map]
        exact fixColumn_valid (hlt _ (List.getElem_mem _))
  refine ⟨?_, map_mask_encode hlt⟩
  unfold DecodeChunk
  rw [buildColumns_mkRow _ hsetlen hsetlt]
  exact fixColumns_forall2 hforall

theorem C4_single_bit_correction_witness :
    DecodeChunk ((List.range 15).map (mkRow
      (((List.replicate 32 0).map encode).set 0
        ((((List.replicate 32 0).map encode).getD 0 0) ^^^ (1 <<< 0))))) =
      .ok ((List.replicate 32 0).map encode) ∧
      ((List.replicate 32 0).map encode).map (fun c => c &&& 0x3ff) =
        List.replicate 32 0 :=
  C4_single_bit_correction _ (by decide) (by decide) 0 0 (by norm_num) (by norm_num)

/-- C7 (counterexample): two chunks that fail at different columns (column 0
holds the unrecoverable code 3 in the first chunk, column 1 in the second)
produce the identical bare failure `Error!!`: neither the chunk index nor the
column index appears in what `DecodeChunk` surfaces, refuting the claim that
the failure is surfaced with those indices. -/
theorem C7_unrecoverable_counterexample :
    DecodeChunk chunkBadCol0 = .error "Error!!" ∧
      DecodeChunk chunkBadCol1 = .error "Error!!" ∧
      (buildColumns chunkBadCol0).getD 0 0 = 3 ∧
      (buildColumns chunkBadCol1).getD 0 0 = 0 ∧
      (buildColumns chunkBadCol1).getD 1 0 = 3 := by
  have h0 : buildColumns chunkBadCol0 = 3 :: List.replicate 31 0 := by decide
  have h1 : buildColumns chunkBadCol1 = 0 :: 3 :: List.replicate 30 0 := by decide
  refine ⟨?_, ?_, by rw [h0]; rfl, by rw [h1]; rfl, by rw [h1]; rfl⟩
  · unfold DecodeChunk
    rw [h0]
    simp only [fixColumns]
    rw [fixColumn_three]
    rfl
  · unfold DecodeChunk
    rw [h1]
    simp only [fixColumns]
    rw [fixColumn_zero, fixColumn_three]
    rfl

/-- C7 (amended): when a 15-row chunk has any column whose codeword looks up
with status `Unrecoverable`, decoding fails fatally — no data words are
produced — but the surfaced failure is the constant message `Error!!`,
carrying neither the chunk index nor the column index. -/
theorem C7_unrecoverable_amended (rows : List ℕ) (hlen : rows.length = 15)
    (c : ℕ) (hc : c ∈ buildColumns rows) (h0 : eccTable c = some (0, 0)) :
    DecodeChunk rows = .error "Error!!" := by
  unfold DecodeChunk
  apply fixColumns_error
  · intro c' hc'
    obtain ⟨v, hv⟩ := eccTable_total (buildColumns_lt rows hlen c' hc')
    rw [hv]
    simp
  · exact ⟨c, hc, h0⟩

theorem C7_unrecoverable_witness : DecodeChunk chunkBadCol0 = .error "Error!!" :=
  C7_unrecoverable_amended chunkBadCol0 (by decide) 3 (by decide) eccTable_at_three

/-- C10: exact single-error recovery: the entry for `encode j ^^^ (1 <<< b)`
is `Corrected` with target exactly `encode j`; the valid entry for `encode j`
is never demoted; no single-bit corruption coincides with another valid
codeword or with a corruption of a different valid codeword. -/
theorem C10_exact_single_error_recovery (j b : ℕ) (hj : j < 1024) (hb : b < 15) :
    eccTable (encode j ^^^ (1 <<< b)) = some (2, encode j) ∧
      eccTable (encode j) = some (1, encode j) ∧
      (∀ j', j' < 1024 → encode j' ≠ encode j ^^^ (1 <<< b)) ∧
      (∀ j', j' < 1024 → ∀ b', b' < 15 →
        encode j' ^^^ (1 <<< b') = encode j ^^^ (1 <<< b) → j' = j ∧ b' = b) :=
  ⟨eccTable_flip hj hb, eccTable_valid hj,
    fun j' hj' => valid_ne_flip hj' hj hb,
    fun j' hj' b' hb' h => flip_inj hj' hj hb' hb h⟩

theorem C10_exact_single_error_recovery_witness :
    eccTable (encode 0 ^^^ (1 <<< 0)) = some (2, encode 0) ∧
      eccTable (encode 0) = some (1, encode 0) ∧
      (∀ j', j' < 1024 → encode j' ≠ encode 0 ^^^ (1 <<< 0)) ∧
      (∀ j', j' < 1024 → ∀ b', b' < 15 →
        encode j' ^^^ (1 <<< b') = encode 0 ^^^ (1 <<< 0) → j' = 0 ∧ b' = 0) :=
  C10_exact_single_error_recovery 0 0 (by norm_num) (by norm_num)

/-- C6 (counterexample): with `spb = 100` a delta of exactly 25.0 classifies
as NarrowAnomaly (`'s'`), not Short (`'S'`): the Short band's lower boundary
is `(2 - 0.75) * 100 / 4 = 31.25`, not 25. -/
theorem C6_pulse_boundary_counterexample :
    classifyInterval 100 25 = 's' ∧ classifyInterval 100 25 ≠ 'S' := by
  have h : classifyInterval 100 25 = 's' := by
    unfold classifyInterval
    rw [if_neg (by norm_num [long_top, absolute_percent_threshold]),
      if_neg (by norm_num [long_bottom, absolute_percent_threshold]),
      if_neg (by norm_num [short_top, absolute_percent_threshold]),
      if_neg (by norm_num [short_bottom, absolute_percent_threshold])]
  exact ⟨h, by rw [h]; decide⟩

/-- C6 (amended): with `spb = 100` the Short band is `[31.25, 68.75]`: a delta
of exactly 31.25 classifies as Short (lower boundary inclusive), while 31.249,
25.0 and 24.999 all classify as NarrowAnomaly. -/
theorem C6_pulse_boundary_amended :
    short_bottom 100 = 125 / 4 ∧
      classifyInterval 100 (125 / 4) = 'S' ∧
      classifyInterval 100 (31249 / 1000) = 's' ∧
      classifyInterval 100 25 = 's' ∧
      classifyInterval 100 (24999 / 1000) = 's' := by
  refine ⟨by norm_num [short_bottom, absolute_percent_threshold], ?_, ?_, ?_, ?_⟩
  · unfold classifyInterval
    rw [if_neg (by norm_num [long_top, absolute_percent_threshold]),
      if_neg (by norm_num [long_bottom, absolute_percent_threshold]),
      if_neg (by norm_num [short_top, absolute_percent_threshold]),
      if_pos (by norm_num [short_bottom, absolute_percent_threshold])]
  · unfold classifyInterval
    rw [if_neg (by norm_num [long_top, absolute_percent_threshold]),
      if_neg (by norm_num [long_bottom, absolute_percent_threshold]),
      if_neg (by norm_num [short_top, absolute_percent_threshold]),
      if_neg (by norm_num [short_bottom, absolute_percent_threshold])]
  · unfold classifyInterval
    rw [if_neg (by norm_num [long_top, absolute_percent_threshold]),
      if_neg (by norm_num [long_bottom, absolute_percent_threshold]),
      if_neg (by norm_num [short_top, absolute_percent_threshold]),
      if_neg (by norm_num [short_bottom, absolute_percent_threshold])]
  · unfold classifyInterval
    rw [if_neg (by norm_num [long_top, absolute_percent_threshold]),
      if_neg (by norm_num [long_bottom, absolute_percent_threshold]),
      if_neg (by norm_num [short_top, absolute_percent_threshold]),
      if_neg (by norm_num [short_bottom, absolute_percent_threshold])]

/-- C9 (counterexample): a positive DC-window size does not suffice to enable
DC windowing: with `samples_per_bit = 16` and `dcwindow = 1/100 > 0` the
activation product is `0.16 ≤ 1`, the window stays inactive, and `Process`
leaves the sample and index untouched — refuting "disabled exactly when the
window size is ≤ 0". -/
theorem C9_dc_window_counterexample :
    (0 : ℚ) < 1 / 100 ∧
      dcwindowIsActive 16 (1 / 100) = false ∧
      perSampleDC (dcwindowIsActive 16 (1 / 100)) [] 0 0 5 7 = ([], 5, 7) := by
  have hact : dcwindowIsActive 16 (1 / 100) = false := by
    simp only [dcwindowIsActive, decide_eq_false_iff_not]
    norm_num
  exact ⟨by norm_num, hact, by rw [hact]; rfl⟩

/-- C9 (amended): for a positive `samples_per_bit`, DC windowing is enabled
iff `samples_per_bit * dcwindow > 1`.  Any `dcwindow ≤ 0` disables it (the
sample passes through unchanged), but a positive `dcwindow` whose product with
`samples_per_bit` stays at most 1 is also disabled; when enabled, every
incoming sample goes through the mean-subtraction-and-index-shift path. -/
theorem C9_dc_window_amended (spb dcw : ℚ) (hspb : 0 < spb) :
    (dcwindowIsActive spb dcw = true ↔ 1 < spb * dcw) ∧
      (dcw ≤ 0 → dcwindowIsActive spb dcw = false ∧
        ∀ (ws : List ℚ) (mid : ℕ) (shift i : ℤ) (sample : ℚ),
          perSampleDC (dcwindowIsActive spb dcw) ws mid shift i sample =
            (ws, i, sample)) ∧
      (1 < spb * dcw → dcwindowIsActive spb dcw = true ∧
        ∀ (ws : List ℚ) (mid : ℕ) (shift i : ℤ) (sample : ℚ),
          perSampleDC (dcwindowIsActive spb dcw) ws mid shift i sample =
            dcProcessStep ws mid shift i sample) := by
  refine ⟨by simp [dcwindowIsActive], ?_, ?_⟩
  · intro hdcw
    have hprod : spb * dcw ≤ 0 := mul_nonpos_of_nonneg_of_nonpos (le_of_lt hspb) hdcw
    have hact : dcwindowIsActive spb dcw = false := by
      simp only [dcwindowIsActive, decide_eq_false_iff_not]
      intro h
      linarith
    exact ⟨hact, fun ws mid shift i sample => by rw [hact]; rfl⟩
  · intro hgt
    have hact : dcwindowIsActive spb dcw = true := by
      simp only [dcwindowIsActive, decide_eq_true_eq]
      exact hgt
    exact ⟨hact, fun ws mid shift i sample => by rw [hact]; rfl⟩

theorem C9_dc_window_amended_witness :
    (dcwindowIsActive 16 (1 / 2) = true ↔ 1 < (16 : ℚ) * (1 / 2)) ∧
      ((1 : ℚ) / 2 ≤ 0 → dcwindowIsActive 16 (1 / 2) = false ∧
        ∀ (ws : List ℚ) (mid : ℕ) (shift i : ℤ) (sample : ℚ),
          perSampleDC (dcwindowIsActive 16 (1 / 2)) ws mid shift i sample =
            (ws, i, sample)) ∧
      (1 < (16 : ℚ) * (1 / 2) → dcwindowIsActive 16 (1 / 2) = true ∧
        ∀ (ws : List ℚ) (mid : ℕ) (shift i : ℤ) (sample : ℚ),
          perSampleDC (dcwindowIsActive 16 (1 / 2)) ws mid shift i sample =
            dcProcessStep ws mid shift i sample) :=
  C9_dc_window_amended 16 (1 / 2) (by norm_num)

theorem runLine_append (s : PState) (l1 l2 : List Char) :
    runLine s (l1 ++ l2) =
      match runLine s l1 with
      | .error e => .error e
      | .ok s' => runLine s' l2 := by
  induction l1 generalizing s with
  | nil => rfl
  | cons c rest ih =>
    simp only [List.cons_append, runLine]
    cases step s c with
    | error e => rfl
    | ok s' => exact ih s'

theorem afterRow_no_chunk {s : PState} (h : s.row_count ≠ 15) :
    afterRow s = .ok { s with c_count := s.c_count + 1 } := by
  unfold afterRow
  rw [if_neg h]

theorem runLine_bits (cs : List Char) :
    ∀ s : PState, s.state = 1 → s.row_count ≠ 15 →
      s.char_count + cs.length ≤ 36 →
      runLine s cs = .ok { s with
        row := s.row * 2 ^ cs.length + accBits (cs.map charBit),
        char_count := s.char_count + cs.length,
        c_count := s.c_count + cs.length } := by
  induction cs with
  | nil =>
    intro s h1 h2 h4
    show Except.ok s = _
    simp [accBits]
  | cons c rest ih =>
    intro s h1 h2 h4
    have hlen : (c :: rest).length = rest.length + 1 := List.length_cons c rest
    have hcc : ¬(s.char_count + 1 = 37) := by
      rw [hlen] at h4
      omega
    have hstep : step s c =
        afterRow { s with
          row := s.row * 2 + charBit c
          char_count := s.char_count + 1 } := by
      unfold step
      simp only [h1]
      rw [if_pos trivial, if_neg hcc]
      rfl
    have hrow : afterRow { s with
        row := s.row * 2 + charBit c
        char_count := s.char_count + 1 } =
        Except.ok { s with
          row := s.row * 2 + charBit c
          char_count := s.char_count + 1
          c_count := s.c_count + 1 } :=
      afterRow_no_chunk h2
    have h5 : runLine s (c :: rest) =
        runLine { s with
          row := s.row * 2 + charBit c
          char_count := s.char_count + 1
          c_count := s.c_count + 1 } rest := by
      simp only [runLine]
      rw [hstep, hrow]
    have h1' : ({ s with
        row := s.row * 2 + charBit c
        char_count := s.char_count + 1
        c_count := s.c_count + 1 } : PState).state = 1 := h1
    have h2' : ({ s with
        row := s.row * 2 + charBit c
        char_count := s.char_count + 1
        c_count := s.c_count + 1 } : PState).row_count ≠ 15 := h2
    have h4' : ({ s with
        row := s.row * 2 + charBit c
        char_count := s.char_count + 1
        c_count := s.c_count + 1 } : PState).char_count + rest.length ≤ 36 := by
      show s.char_count + 1 + rest.length ≤ 36
      rw [hlen] at h4
      omega
    rw [h5, ih _ h1' h2' h4']
    congr 1
    congr 1
    · show s.c_count + 1 + rest.length = s.c_count + (c :: rest).length
      rw [hlen]
      omega
    · show s.char_count + 1 + rest.length = s.char_count + (c :: rest).length
      rw [hlen]
      omega
    · show (s.row * 2 + charBit c) * 2 ^ rest.length + accBits (rest.map charBit) =
        s.row * 2 ^ (c :: rest).length + accBits ((c :: rest).map charBit)
      simp only [List.map_cons, accBits_cons, List.length_map, hlen]
      ring

theorem trimWindow_ne_preamble {sp : List Char} {c : Char} (hc : c ≠ '1') :
    trimWindow (sp ++ [c]) ≠ syncPreamble := by
  have hlast : (trimWindow (sp ++ [c])).getLast? = some c := by
    unfold trimWindow
    by_cases hl : (sp ++ [c]).length > 32 * 4
    · rw [if_pos hl]
      have hsp : 1 ≤ sp.length := by
        rw [List.length_append] at hl
        simp at hl
        omega
      rw [List.drop_append_of_le_length hsp]
      exact List.getLast?_concat _
    · rw [if_neg hl]
      exact List.getLast?_concat _
  intro heq
  rw [heq] at hlast
  have : syncPreamble.getLast? = some '1' := by rfl
  rw [this] at hlast
  exact hc (Option.some.injEq _ _ ▸ hlast).symm

/-- C5 (counterexample): processing a data line consisting of the single
WideAnomaly character `'w'` leaves the synchronization window equal to
`['w']`: the anomaly character entered the rolling window instead of
resetting it, refuting "the window contains only Zero/One bit characters" and
"Gap/Anomaly characters reset the window". -/
theorem C5_framer_window_counterexample :
    ∃ st : PState, procLine ['w'] = .ok st ∧ st.sync_pattern = ['w'] ∧
      st.sync_pattern ≠ [] := by
  refine ⟨_, rfl, rfl, ?_⟩
  show (['w'] : List Char) ≠ []
  decide

/-- C5 (amended): the rolling window accumulates every received character —
on any character other than `'1'` in the scanning state the window is just the
trimmed extension of the old window (no reset, anomaly characters included)
and synchronization cannot fire (the preamble ends in `'1'`); in the
row-assembly state, a non-`'1'` character (so also every Gap/Anomaly
character) is consumed as a 0 bit of the row in progress rather than
resetting it. -/
theorem C5_framer_window_amended (s : PState) (c : Char) (hc : c ≠ '1') :
    (s.state = 0 → step s c = .ok { s with
        zero_count := if c = '0' then
            (if s.counting_zeros then s.zero_count + 1 else s.zero_count)
          else s.zero_count,
        counting_zeros := if c = '0' then s.counting_zeros else false,
        sync_pattern := trimWindow (s.sync_pattern ++ [c]),
        c_count := s.c_count + 1 }) ∧
    (s.state = 1 → s.char_count + 1 ≠ 37 → s.row_count ≠ 15 →
      step s c = .ok { s with
        row := s.row * 2
        char_count := s.char_count + 1
        c_count := s.c_count + 1 }) := by
  constructor
  · intro h0
    unfold step
    simp only [h0]
    rw [if_pos trivial, if_neg (trimWindow_ne_preamble hc)]
  · intro h1 hcc h15
    unfold step
    rw [if_neg (show ¬s.state = 0 by omega), if_pos h1, if_neg hcc, if_neg hc]
    exact @afterRow_no_chunk { s with
      row := s.row * 2 + 0
      char_count := s.char_count + 1 } h15

theorem C5_framer_window_amended_witness :
    (initPState.state = 0 → step initPState 'w' = .ok { initPState with
        zero_count := if 'w' = '0' then
            (if initPState.counting_zeros then initPState.zero_count + 1
             else initPState.zero_count)
          else initPState.zero_count,
        counting_zeros := if 'w' = '0' then initPState.counting_zeros else false,
        sync_pattern := trimWindow (initPState.sync_pattern ++ ['w']),
        c_count := initPState.c_count + 1 }) ∧
    (initPState.state = 1 → initPState.char_count + 1 ≠ 37 →
      initPState.row_count ≠ 15 →
      step initPState 'w' = .ok { initPState with
        row := initPState.row * 2
        char_count := initPState.char_count + 1
        c_count := initPState.c_count + 1 }) :=
  C5_framer_window_amended initPState 'w' (by decide)

set_option maxRecDepth 4000 in
theorem runLine_preamble : runLine initPState syncPreamble = .ok syncState := by
  rfl

theorem charBit_of_bit {b : ℕ} (hb : b ≤ 1) :
    charBit (if b = 1 then '1' else '0') = b := by
  rcases Nat.le_one_iff_eq_zero_or_eq_one.mp hb with h | h <;> rw [h] <;> rfl

theorem shiftRight32_lt {v : ℕ} (hv : v < 2 ^ 37) : v >>> 32 < 2 ^ 5 := by
  rw [Nat.shiftRight_eq_div_pow]
  rw [Nat.div_lt_iff_lt_mul (Nat.two_pow_pos 32)]
  calc v < 2 ^ 37 := hv
    _ = 2 ^ 5 * 2 ^ 32 := by norm_num

theorem and_top5 {v : ℕ} (hv : v < 2 ^ 37) :
    v &&& 0x1f00000000 = (v >>> 32) <<< 32 := by
  have h1 : (0x1f00000000 : ℕ) = 0x1f <<< 32 := by rw [Nat.shiftLeft_eq]
  rw [h1, and_shiftLeft]
  congr 1
  have h5 : (0x1f : ℕ) = 2 ^ 5 - 1 := by norm_num
  rw [h5]
  exact Nat.and_pow_two_sub_one_of_lt_two_pow (shiftRight32_lt hv)

theorem bad_top5 {v : ℕ} (hv : v < 2 ^ 37) (htop : v >>> 32 ≠ 0x1d) :
    ¬(v &&& 0x1f00000000 = 0x1d00000000) := by
  rw [and_top5 hv]
  intro h
  apply htop
  have h2 : (0x1d00000000 : ℕ) = 0x1d <<< 32 := by rw [Nat.shiftLeft_eq]
  rw [h2] at h
  exact shiftLeft_right_inj h

theorem step_bad_row {s : PState} (c : Char) (h1 : s.state = 1)
    (hcc : s.char_count = 36)
    (hbad : ¬((s.row * 2 + (if c = '1' then 1 else 0)) &&&
      0x1f00000000 = 0x1d00000000)) :
    step s c = .error (.frameErr s.c_count { s with
      row := s.row * 2 + (if c = '1' then 1 else 0)
      char_count := s.char_count + 1 }) := by
  unfold step
  simp only [h1, hcc]
  rw [if_neg (by norm_num : ¬(1 : ℕ) = 0), if_pos trivial, if_neg hbad,
    if_pos trivial]

/-- C8: a data line consisting of the synchronization preamble followed by the
37 bit characters of a row value `v` whose top 5 bits differ from `0b11101`
makes `Process` raise the framing error (`print("\nError!", c_count);
sys.exit()`) at bit offset 164 — the line index of the offending row's last
bit character (128 preamble characters + 37 row characters - 1) — aborting row
assembly; the state at exit shows that no record file was opened and no `file`
manifest line was written for the segment's incomplete chunk (only the `zero 0`
line from synchronization). -/
theorem C8_framing_violation (v : ℕ) (hv : v < 2 ^ 37) (htop : v >>> 32 ≠ 0x1d) :
    ∃ st : PState,
      procLine (syncPreamble ++ rowChars v) = .error (.frameErr 164 st) ∧
      st.out = [.zeroOut 0] ∧ st.fpout = false ∧ st.record = 1 := by
  have hbits : (((List.range 36).map
      (fun t => if (v >>> (36 - t)) &&& 1 = 1 then '1' else '0')).map charBit) =
      (List.range 36).map (fun t => (v >>> (36 - t)) &&& 1) := by
    rw [List.map_map]
    apply List.map_congr_left
    intro t _
    show charBit (if (v >>> (36 - t)) &&& 1 = 1 then '1' else '0') =
      (v >>> (36 - t)) &&& 1
    exact charBit_of_bit Nat.and_le_right
  have haccb : accBits ((List.range 36).map (fun t => (v >>> (36 - t)) &&& 1)) =
      v >>> 1 := by
    have hidx : (List.range 36).map (fun t => (v >>> (36 - t)) &&& 1) =
        (List.range 36).map (fun t => ((v >>> 1) >>> (36 - 1 - t)) &&& 1) := by
      apply List.map_congr_left
      intro t ht
      have ht' : t < 36 := List.mem_range.mp ht
      rw [← Nat.shiftRight_add]
      congr 2
      omega
    rw [hidx, accBits_ofBits]
    apply Nat.mod_eq_of_lt
    rw [Nat.shiftRight_eq_div_pow, pow_one]
    have h36 : (2 : ℕ) ^ 36 * 2 = 2 ^ 37 := by norm_num
    omega
  have h36run : runLine syncState ((List.range 36).map
      (fun t => if (v >>> (36 - t)) &&& 1 = 1 then '1' else '0')) =
      .ok { syncState with
        row := v >>> 1
        char_count := 36
        c_count := 164 } := by
    rw [runLine_bits _ syncState rfl (by decide)
      (by simp only [List.length_map, List.length_range]; decide)]
    rw [hbits, haccb]
    simp only [List.length_map, List.length_range]
    simp only [syncState]
    norm_num
  have hrowval : (v >>> 1) * 2 + (if (if v &&& 1 = 1 then '1' else '0') = '1'
      then 1 else 0) = v := by
    have hb : (if (if v &&& 1 = 1 then '1' else '0') = '1' then 1 else 0) =
        v &&& 1 := charBit_of_bit Nat.and_le_right
    rw [hb, Nat.shiftRight_eq_div_pow, pow_one, Nat.and_one_is_mod]
    omega
  have hlaststep : step ({ syncState with
      row := v >>> 1
      char_count := 36
      c_count := 164 } : PState) (if v &&& 1 = 1 then '1' else '0') =
      .error (.frameErr 164 { ({ syncState with
        row := v >>> 1
        char_count := 36
        c_count := 164 } : PState) with
          row := (v >>> 1) * 2 + (if (if v &&& 1 = 1 then '1' else '0') = '1'
            then 1 else 0)
          char_count := 36 + 1 }) := by
    apply step_bad_row _ rfl rfl
    rw [hrowval]
    exact bad_top5 hv htop
  have hmain : procLine (syncPreamble ++ rowChars v) =
      .error (.frameErr 164 { ({ syncState with
        row := v >>> 1
        char_count := 36
        c_count := 164 } : PState) with
          row := (v >>> 1) * 2 + (if (if v &&& 1 = 1 then '1' else '0') = '1'
            then 1 else 0)
          char_count := 36 + 1 }) := by
    unfold procLine
    rw [runLine_append, runLine_preamble]
    show (match runLine syncState (rowChars v) with
      | Except.error e => Except.error e
      | Except.ok s => Except.ok (finishLine s) : Except PExit PState) = _
    unfold rowChars
    rw [runLine_append, h36run]
    show (match runLine ({ syncState with
        row := v >>> 1
        char_count := 36
        c_count := 164 } : PState) [if v &&& 1 = 1 then '1' else '0'] with
      | Except.error e => Except.error e
      | Except.ok s => Except.ok (finishLine s) : Except PExit PState) = _
    simp only [runLine]
    rw [hlaststep]
  exact ⟨_, hmain, rfl, rfl, rfl⟩

theorem C8_framing_violation_witness :
    ∃ st : PState,
      procLine (syncPreamble ++ rowChars 0x1c00000000) =
        .error (.frameErr 164 st) ∧
      st.out = [.zeroOut 0] ∧ st.fpout = false ∧ st.record = 1 :=
  C8_framing_violation 0x1c00000000 (by norm_num) (by decide)

end KCTools

